import Mathlib

/-!
Verification of the AI process orchestration core of the AiGithubHelper
repository: provider selection with fallback, the multi-model Gemini
capability, workspace path construction and validation, input sanitisation
for clone and checkout commands, and the idempotent cleanup action of the
process supervisor.

The definitions below are shallow embeddings of the TypeScript source:
  - string predicates mirror the JavaScript `includes`, `startsWith`,
    `endsWith` operations on the underlying character lists;
  - the Node `path.resolve` and `path.normalize` functions (POSIX flavour)
    are modelled on lists of path segments;
  - the event-driven subprocess supervision is modelled as a fold of a
    step function over an explicit list of events, which is faithful to
    the single-threaded cooperative scheduling of the Node event loop.
-/

namespace AiGithubHelper

/-! ## Character-list string primitives

JavaScript string operations used by the source, modelled on `List Char`
(the `data` of a Lean `String`). -/

/-- JavaScript `startsWith`: `pat` is a prefix of `hay`. -/
def startsWithL (hay pat : List Char) : Bool :=
  match pat, hay with
  | [], _ => true
  | _ :: _, [] => false
  | p :: ps, h :: hs => p == h && startsWithL hs ps

/-- JavaScript `includes`: `pat` occurs contiguously inside `hay`. -/
def includesL (hay pat : List Char) : Bool :=
  match hay with
  | [] => pat.isEmpty
  | _ :: rest => startsWithL hay pat || includesL rest pat

/-- JavaScript `endsWith`: `pat` is a suffix of `hay`. -/
def endsWithL (hay pat : List Char) : Bool :=
  startsWithL hay.reverse pat.reverse

/-- String-level wrapper for JavaScript `startsWith`. -/
def strStartsWith (hay pat : String) : Bool :=
  startsWithL hay.data pat.data

/-- String-level wrapper for JavaScript `includes`. -/
def strIncludes (hay pat : String) : Bool :=
  includesL hay.data pat.data

/-! ## POSIX path model (Node `path.resolve` / `path.normalize`)

Paths are strings; resolution works on the list of `/`-separated
segments.  `resolveSegs` is the core of Node path resolution: empty and
`.` segments are dropped, `..` pops the last accumulated segment (at the
root, excess `..` segments are dropped, as Node does for absolute
paths). -/

/-- Split a character list on the `/` separator. -/
def splitSlashAux : List Char → List Char → List (List Char)
  | cur, [] => [cur.reverse]
  | cur, c :: rest =>
    if c = '/' then cur.reverse :: splitSlashAux [] rest
    else splitSlashAux (c :: cur) rest

/-- Segments of a path string (split on `/`). -/
def splitSlash (cs : List Char) : List (List Char) :=
  splitSlashAux [] cs

/-- Process path segments against an accumulator, eliminating empty,
`.` and `..` segments as Node resolution does for absolute paths. -/
def resolveSegs : List (List Char) → List (List Char) → List (List Char)
  | acc, [] => acc
  | acc, seg :: rest =>
    if seg = [] ∨ seg = ['.'] then resolveSegs acc rest
    else if seg = ['.', '.'] then resolveSegs acc.dropLast rest
    else resolveSegs (acc ++ [seg]) rest

/-- Join path segments with the `/` separator. -/
def joinSegs : List (List Char) → List Char
  | [] => []
  | s :: rest =>
    match rest with
    | [] => s
    | _ :: _ => s ++ '/' :: joinSegs rest

/-- Render resolved segments as an absolute path. -/
def renderAbs (segs : List (List Char)) : String :=
  ⟨'/' :: joinSegs segs⟩

/-- Node `path.resolve(base, sub)` where `base` is an absolute path: if
`sub` is absolute the base is ignored, otherwise `sub` is resolved
against the segments of `base`. -/
def nodeResolve (base sub : String) : String :=
  if startsWithL sub.data ['/'] then
    renderAbs (resolveSegs [] (splitSlash sub.data))
  else
    renderAbs (resolveSegs (resolveSegs [] (splitSlash base.data)) (splitSlash sub.data))

/-- Node `path.normalize` restricted to absolute paths (every path the
source normalizes is an output of `path.resolve`, hence absolute). -/
def nodeNormalize (p : String) : String :=
  renderAbs (resolveSegs [] (splitSlash p.data))

/-- The `os.tmpdir()` value of the host (a fixed absolute directory). -/
def tmpdirPath : String := "/tmp"

/-- The fixed base temp directory `resolve(tmpdir(), 'ai-github-helper')`
under which every task workspace must live. -/
def expectedBasePath : String := nodeNormalize (nodeResolve tmpdirPath "ai-github-helper")

/-! ## Workspace creation (`ReviewCommentHandler.setupWorkingDirectory`)

From the hardened review-comment handler: the workspace path is
`resolve(tmpdir(), 'ai-github-helper', subdirectoryName)`; the normalized
path must start with the base path followed by `/`, or be exactly equal
to the base path, otherwise the handler throws
`Invalid temporary directory path`. -/

/-- Embedding of `setupWorkingDirectory`: synthesize and validate the
per-task workspace path.  Returns the workspace path, or the error the
source throws when the validation fails. -/
def setupWorkingDirectory (subdirectoryName : String) : Except String String :=
  let tempWorkDir := nodeResolve (nodeResolve tmpdirPath "ai-github-helper") subdirectoryName
  let normalized := nodeNormalize tempWorkDir
  if ¬ (strStartsWith normalized (expectedBasePath ++ "/") = true) ∧
      normalized ≠ expectedBasePath then
    Except.error "Invalid temporary directory path"
  else
    Except.ok tempWorkDir

/-- A path is inside the base directory: equal to the base, or a strict
descendant of it. -/
def insideBase (p : String) : Bool :=
  p == expectedBasePath || strStartsWith p (expectedBasePath ++ "/")

/-- Recursive removal (`rmSync` with `recursive: true`) of `target`
removes the file-system entry `p` exactly when `p` is `target` itself or
any descendant of `target`. -/
def removedBy (target p : String) : Bool :=
  target == p || strStartsWith p (target ++ "/")

/-! ## Input sanitisation (`ReviewCommentHandler`)

`sanitizeRepositoryName` and `sanitizeBranchName` from
`src/webhook/handlers/review-comment.ts`, plus the hardened
`sanitizeBranchName` variant.  JavaScript regular expressions over the
ASCII character classes are expanded into explicit character
predicates. -/

/-- Character class `[a-zA-Z0-9._-]` of the repository-name regular
expression. -/
def repoNameChar (c : Char) : Bool :=
  c.isAlpha || c.isDigit || c = '.' || c = '_' || c = '-'

/-- The regular expression `^[a-zA-Z0-9._-]+\/[a-zA-Z0-9._-]+$`: exactly
one `/`, with a nonempty run of allowed characters on each side.
Splitting on `/` yields exactly two pieces precisely when the string has
exactly one `/`, and the allowed class excludes `/`. -/
def matchesRepoNameRegex (s : String) : Bool :=
  match splitSlash s.data with
  | [owner, repo] =>
    !owner.isEmpty && !repo.isEmpty && owner.all repoNameChar && repo.all repoNameChar
  | _ => false

/-- Embedding of `sanitizeRepositoryName`: reject the empty string (JS
falsiness check), then require the strict `owner/repo` shape. -/
def sanitizeRepositoryName (fullName : String) : Except String String :=
  if fullName = "" then
    Except.error "Repository name must be a non-empty string"
  else if ¬ (matchesRepoNameRegex fullName = true) then
    Except.error "Invalid repository name format"
  else
    Except.ok fullName

/-- Clone argument vector built by `ReviewCommentHandler.cloneRepository`:
the repository identity passes through `sanitizeRepositoryName` before
the vector `gh repo clone <name> <path>` is assembled. -/
def cloneArgsReviewComment (fullName repoPath : String) : Except String (List String) :=
  (sanitizeRepositoryName fullName).map
    (fun sanitized => ["gh", "repo", "clone", sanitized, repoPath])

/-- Clone argument vector built by `IssueHandler.handleIssue`: the
payload repository identity `repository.full_name` is placed in the
vector directly, with no validation step. -/
def cloneArgsIssue (fullName repoPath : String) : List String :=
  ["gh", "repo", "clone", fullName, repoPath]

/-- Character class `[a-zA-Z0-9/_.-]` of the branch-name regular
expression. -/
def branchNameChar (c : Char) : Bool :=
  c.isAlpha || c.isDigit || c = '/' || c = '_' || c = '.' || c = '-'

/-- The regular expression `^[a-zA-Z0-9/_.-]+$`: nonempty, all
characters in the class. -/
def matchesBranchNameRegex (s : String) : Bool :=
  !s.data.isEmpty && s.data.all branchNameChar

/-- Embedding of `sanitizeBranchName` (review-comment handler): empty
strings are rejected, the string must match the branch-name regular
expression, and branch names containing `..`, starting with `/`, or
ending with `/` are rejected. -/
def sanitizeBranchName (branchName : String) : Except String String :=
  if branchName = "" then
    Except.error "Branch name must be a non-empty string"
  else if ¬ (matchesBranchNameRegex branchName = true) then
    Except.error "Invalid branch name format"
  else if strIncludes branchName ".." || strStartsWith branchName "/" ||
      endsWithL branchName.data "/".data then
    Except.error "Branch name contains invalid characters"
  else
    Except.ok branchName

/-- Alphanumeric class `[a-zA-Z0-9]` used at the edges of the hardened
branch-name regular expression. -/
def alnumChar (c : Char) : Bool :=
  c.isAlpha || c.isDigit

/-- The hardened regular expression
`^[a-zA-Z0-9][a-zA-Z0-9/_.-]*[a-zA-Z0-9]$|^[a-zA-Z0-9]$`: a single
alphanumeric character, or an alphanumeric first and last character
with class characters in between. -/
def matchesHardenedBranchRegex (s : String) : Bool :=
  match s.data with
  | [] => false
  | [c] => alnumChar c
  | c :: rest =>
    alnumChar c && rest.dropLast.all branchNameChar &&
      (match rest.getLast? with
       | some last => alnumChar last
       | none => false)

/-- Embedding of the hardened `sanitizeBranchName` variant: the stricter
regular expression followed by an explicit blacklist of dangerous
substrings and shapes, including `..`, leading or trailing `/`, `//`,
`~`, `^`, `:`, `?`, `*`, `[`, backslash, space, and over-length
names. -/
def sanitizeBranchNameHardened (branchName : String) : Except String String :=
  if branchName = "" then
    Except.error "Branch name must be a non-empty string"
  else if ¬ (matchesHardenedBranchRegex branchName = true) then
    Except.error "Invalid branch name format"
  else if strIncludes branchName ".." || strStartsWith branchName "/" ||
      endsWithL branchName.data "/".data || strIncludes branchName "//" ||
      strIncludes branchName "~" || strIncludes branchName "^" ||
      strIncludes branchName ":" || strIncludes branchName "?" ||
      strIncludes branchName "*" || strIncludes branchName "[" ||
      strIncludes branchName "\\" || strIncludes branchName " " ||
      decide (branchName.data.length > 255) then
    Except.error "Branch name contains invalid characters"
  else
    Except.ok branchName

/-- Checkout argument vector built by
`ReviewCommentHandler.checkoutPRBranch`: the branch name passes through
`sanitizeBranchName` before the vector `git checkout <branch>` is
assembled. -/
def checkoutArgs (branchName : String) : Except String (List String) :=
  (sanitizeBranchName branchName).map
    (fun sanitized => ["git", "checkout", sanitized])

/-! ## Cleanup action of the process supervisor

`setupCleanupHandlers` in the review-comment handler (and the identical
closure in the issue handler) guards the cleanup body with a mutable
`isCleanedUp` boolean; the hardened variant adds a `cleanupMutex`
re-entrancy guard.  The Node event loop is single threaded, so the four
trigger paths (timeout timer, child `close`, child `error`, host signal)
invoke the closure sequentially; we model an arbitrary interleaving as
an arbitrary nonempty list of trigger invocations folded over the
state.

`childKilled` models the Node `child.killed` flag, which becomes `true`
once `kill` is invoked on the handle; the handle passed to the
supervisor has never been killed (the Gemini capability only kills
subprocesses it rejects, never the handle it returns), so the flag
starts `false`. -/

/-- Observable state of one task's cleanup: the run-once flag, the
`child.killed` flag, and counters for each release action. -/
structure CleanupState where
  isCleanedUp : Bool
  childKilled : Bool
  killCalls : Nat
  rmCalls : Nat
  detachCalls : Nat
deriving Repr, DecidableEq

/-- One invocation of the cleanup closure from
`setupCleanupHandlers`: return immediately when `isCleanedUp` is set;
otherwise set it, send `SIGTERM` to the child if it is not already
killed, remove the workspace, and detach the three process-level
listeners. -/
def runCleanup (s : CleanupState) : CleanupState :=
  if s.isCleanedUp then s
  else
    let s1 : CleanupState := { s with isCleanedUp := true }
    let s2 : CleanupState :=
      if ¬ s1.childKilled then
        { s1 with killCalls := s1.killCalls + 1, childKilled := true }
      else s1
    { s2 with rmCalls := s2.rmCalls + 1, detachCalls := s2.detachCalls + 1 }

/-- Cleanup state before any trigger fires. -/
def initialCleanupState : CleanupState :=
  ⟨false, false, 0, 0, 0⟩

/-- The four trigger paths that invoke the cleanup closure. -/
inductive CleanupTrigger
  | timeoutFired
  | childClose
  | childError
  | hostSignal
deriving Repr, DecidableEq

/-- Fire an arbitrary sequence of triggers; each trigger path calls the
same cleanup closure. -/
def fireTriggers (ts : List CleanupTrigger) : CleanupState :=
  ts.foldl (fun s _ => runCleanup s) initialCleanupState

/-- Observable state of the hardened cleanup closure, which adds the
`cleanupMutex` re-entrancy guard of the hardened handler. -/
structure HardenedCleanupState where
  isCleanedUp : Bool
  cleanupMutex : Bool
  childKilled : Bool
  killCalls : Nat
  rmCalls : Nat
  detachCalls : Nat
deriving Repr, DecidableEq

/-- One invocation of the hardened cleanup closure: return when the
mutex or the run-once flag is set; otherwise take the mutex, re-check
the flag, run the release actions, and release the mutex in the
`finally` block. -/
def runHardenedCleanup (s : HardenedCleanupState) : HardenedCleanupState :=
  if s.cleanupMutex || s.isCleanedUp then s
  else
    let s1 : HardenedCleanupState := { s with cleanupMutex := true }
    let s2 : HardenedCleanupState :=
      if s1.isCleanedUp then s1
      else
        let a : HardenedCleanupState := { s1 with isCleanedUp := true }
        let b : HardenedCleanupState :=
          if ¬ a.childKilled then
            { a with killCalls := a.killCalls + 1, childKilled := true }
          else a
        { b with rmCalls := b.rmCalls + 1, detachCalls := b.detachCalls + 1 }
    { s2 with cleanupMutex := false }

/-- Hardened cleanup state before any trigger fires. -/
def initialHardenedState : HardenedCleanupState :=
  ⟨false, false, false, 0, 0, 0⟩

/-- Fire an arbitrary sequence of triggers against the hardened
closure. -/
def fireHardenedTriggers (ts : List CleanupTrigger) : HardenedCleanupState :=
  ts.foldl (fun s _ => runHardenedCleanup s) initialHardenedState

/-! ## Provider selection policy (`AIProviderFactory`) -/

/-- The provider identities accepted by `AIProviderFactory.create`. -/
inductive ProviderIdentity
  | claude
  | gemini
  | auto
deriving Repr, DecidableEq

/-- The two concrete provider capabilities. -/
inductive ProviderName
  | claude
  | gemini
deriving Repr, DecidableEq

/-- Result of an availability probe for each capability (the outcome of
the version-check invocation, supplied as an input of the policy). -/
structure Availability where
  claudeAvailable : Bool
  geminiAvailable : Bool
deriving Repr, DecidableEq

/-- Availability of one named capability. -/
def Availability.of (a : Availability) : ProviderName → Bool
  | ProviderName.claude => a.claudeAvailable
  | ProviderName.gemini => a.geminiAvailable

/-- Error message of `selectBestAvailableProvider` when no capability is
available. -/
def noProviderMessage : String :=
  "No AI providers are available. Please ensure Claude CLI or Gemini CLI is installed and configured."

/-- Error message of `getFallbackProvider` when the fallback capability
is also unavailable. -/
def neitherAvailableMessage (requested : ProviderName) : String :=
  "Neither " ++ (match requested with
    | ProviderName.claude => "claude"
    | ProviderName.gemini => "gemini") ++
    " nor fallback provider are available. Please ensure at least one AI CLI is installed and configured."

/-- Embedding of `AIProviderFactory.getFallbackProvider`: the fallback of
`claude` is `gemini` and vice versa; return it when its probe succeeds,
fail otherwise. -/
def getFallbackProvider (requested : ProviderName) (a : Availability) :
    Except String ProviderName :=
  let fallback := match requested with
    | ProviderName.claude => ProviderName.gemini
    | ProviderName.gemini => ProviderName.claude
  if a.of fallback then Except.ok fallback
  else Except.error (neitherAvailableMessage requested)

/-- Embedding of `AIProviderFactory.selectBestAvailableProvider`: walk
the fixed priority list and return the first capability whose probe
succeeds. -/
def firstAvailable (a : Availability) : List ProviderName → Except String ProviderName
  | [] => Except.error noProviderMessage
  | p :: rest => if a.of p then Except.ok p else firstAvailable a rest

/-- The fixed priority order `[claudeProvider, geminiProvider]` of
`selectBestAvailableProvider`. -/
def providerPriority : List ProviderName :=
  [ProviderName.claude, ProviderName.gemini]

/-- Embedding of `AIProviderFactory.create`: explicit identities return
the requested capability, probing only when `fallbackEnabled`; `auto`
delegates to the priority scan. -/
def createProvider (identity : ProviderIdentity) (fallbackEnabled : Bool)
    (a : Availability) : Except String ProviderName :=
  match identity with
  | ProviderIdentity.claude =>
    if fallbackEnabled && !a.claudeAvailable then
      getFallbackProvider ProviderName.claude a
    else Except.ok ProviderName.claude
  | ProviderIdentity.gemini =>
    if fallbackEnabled && !a.geminiAvailable then
      getFallbackProvider ProviderName.gemini a
    else Except.ok ProviderName.gemini
  | ProviderIdentity.auto => firstAvailable a providerPriority

/-! ## Multi-model Gemini capability (`GeminiProvider`)

`tryModel` spawns one subprocess and returns a promise that is settled
by the first of: the 5000 ms grace timer (resolve with the handle), a
quota/critical-error signature accumulating on standard error (kill the
child with `SIGTERM` and reject), a spawn `error` event (reject), or a
nonzero `exit` (reject).  The subprocess behaviour is an explicit list
of events processed in order by the Node event loop. -/

/-- Primary model argument of the Gemini capability. -/
def primaryModel : String := "gemini-2.5-pro"

/-- Secondary (fallback) model argument of the Gemini capability. -/
def fallbackModel : String := "gemini-2.5-flash"

/-- Events a spawned subprocess can deliver to the `tryModel` promise:
a standard-error chunk, a spawn error, an exit with a code, or the
firing of the 5-second grace timer. -/
inductive GeminiEvent
  | stderrData (chunk : List Char)
  | errorEvent
  | exitEvent (code : Int)
  | graceTimer
deriving Repr, DecidableEq

/-- How the `tryModel` promise was settled. -/
inductive TrySettled
  | pending
  | resolvedHandle
  | rejected
deriving Repr, DecidableEq

/-- State of one `tryModel` promise: the accumulated standard-error
buffer, the `resolved` flag, whether `clearTimeout` has run, whether
`SIGTERM` was sent to this subprocess, and how the promise settled. -/
structure TryModelState where
  stderrBuffer : List Char
  resolved : Bool
  timeoutCleared : Bool
  killedPrimarySignal : Bool
  settled : TrySettled
deriving Repr, DecidableEq

/-- The quota / critical-error signature scan of the stderr handler:
the accumulated buffer is checked for the five fixed substrings. -/
def quotaSignature (buffer : List Char) : Bool :=
  includesL buffer "Quota exceeded".data ||
  includesL buffer "status 429".data ||
  includesL buffer "rateLimitExceeded".data ||
  includesL buffer "NOT_FOUND".data ||
  includesL buffer "API Error".data

/-- One event-loop step of the `tryModel` promise machinery. -/
def tryModelStep (s : TryModelState) (e : GeminiEvent) : TryModelState :=
  match e with
  | GeminiEvent.stderrData chunk =>
    let s1 : TryModelState := { s with stderrBuffer := s.stderrBuffer ++ chunk }
    if quotaSignature s1.stderrBuffer then
      let s2 : TryModelState := { s1 with timeoutCleared := true }
      if ¬ s2.resolved then
        { s2 with resolved := true, killedPrimarySignal := true,
                  settled := TrySettled.rejected }
      else s2
    else s1
  | GeminiEvent.errorEvent =>
    let s1 : TryModelState := { s with timeoutCleared := true }
    if ¬ s1.resolved then
      { s1 with resolved := true, settled := TrySettled.rejected }
    else s1
  | GeminiEvent.exitEvent code =>
    let s1 : TryModelState := { s with timeoutCleared := true }
    if ¬ s1.resolved ∧ code ≠ 0 then
      { s1 with resolved := true, settled := TrySettled.rejected }
    else s1
  | GeminiEvent.graceTimer =>
    if ¬ s.timeoutCleared ∧ ¬ s.resolved then
      { s with resolved := true, settled := TrySettled.resolvedHandle }
    else s

/-- `tryModel` promise state before any event is delivered. -/
def initialTryModelState : TryModelState :=
  ⟨[], false, false, false, TrySettled.pending⟩

/-- Run the `tryModel` machinery over the event trace of one spawned
subprocess. -/
def runTryModel (events : List GeminiEvent) : TryModelState :=
  events.foldl tryModelStep initialTryModelState

/-- Outcome of `GeminiProvider.execute`: a handle to a subprocess
spawned with the named model, the all-models-failed error, or a promise
that never settles (possible when a subprocess exits with code 0 before
the grace timer fires, so neither resolve nor reject runs). -/
inductive GeminiExecResult
  | handle (model : String)
  | allModelsFailed
  | neverSettles
deriving Repr, DecidableEq

/-- Embedding of `GeminiProvider.execute`: await `tryModel` with the
primary model; on rejection, await `tryModel` with the fallback model;
if that also rejects, fail with the both-models-failed error.
`primaryEvents` and `fallbackEvents` are the event traces of the two
(potential) subprocesses. -/
def geminiExecute (primaryEvents fallbackEvents : List GeminiEvent) : GeminiExecResult :=
  match (runTryModel primaryEvents).settled with
  | TrySettled.resolvedHandle => GeminiExecResult.handle primaryModel
  | TrySettled.rejected =>
    match (runTryModel fallbackEvents).settled with
    | TrySettled.resolvedHandle => GeminiExecResult.handle fallbackModel
    | TrySettled.rejected => GeminiExecResult.allModelsFailed
    | TrySettled.pending => GeminiExecResult.neverSettles
  | TrySettled.pending => GeminiExecResult.neverSettles

/-! ## Single-model Claude capability (`ClaudeProvider`) and the issue
orchestrator response path

`ClaudeProvider.execute` calls `spawn`, writes the prompt to the child
standard input, and returns the child handle.  There is no rejection
path in its body: on Linux, `spawn` of a missing or non-executable file
still returns a `ChildProcess` object and reports the failure through a
later asynchronous `error` event, and stdin writes are buffered.  The
environment records whether the spawn will fail; the failure is carried
on the returned handle as a pending error event. -/

/-- Environment of one `ClaudeProvider.execute` call: whether the
attempt to start the executable fails at the OS level (executable not
found, permission denied). -/
structure SpawnEnv where
  spawnFails : Bool
deriving Repr, DecidableEq

/-- The handle returned by `spawn`: the argument vector, working
directory, buffered standard input, and whether an asynchronous `error`
event is pending because the executable could not be started. -/
structure SpawnedHandle where
  argv : List String
  cwd : String
  stdinData : String
  pendingErrorEvent : Bool
deriving Repr, DecidableEq

/-- The handle `ClaudeProvider.execute` returns for a given call. -/
def claudeHandle (prompt workingDir : String) (env : SpawnEnv) : SpawnedHandle :=
  { argv := ["claude", "--print", "--dangerously-skip-permissions"],
    cwd := workingDir,
    stdinData := prompt,
    pendingErrorEvent := env.spawnFails }

/-- Embedding of `ClaudeProvider.execute`: spawn, write the prompt to
stdin, return the handle.  The body contains no throw and no rejection,
so the returned promise always resolves with the handle. -/
def claudeExecute (prompt workingDir : String) (env : SpawnEnv) :
    Except String SpawnedHandle :=
  Except.ok (claudeHandle prompt workingDir env)

/-- HTTP response of `IssueHandler.handleIssue` as seen by the webhook
caller. -/
inductive HandlerResponse
  | started200
  | error500
deriving Repr, DecidableEq

/-- The issue orchestrator response path after the clone succeeded:
await `execute`; on success register the cleanup handlers and respond
200 (analysis started), on a thrown error respond 500. -/
def issueHandlerResponse (prompt workingDir : String) (env : SpawnEnv) : HandlerResponse :=
  match claudeExecute prompt workingDir env with
  | Except.ok _ => HandlerResponse.started200
  | Except.error _ => HandlerResponse.error500

/-- Whether an `Except` computation failed (the handler threw). -/
def exceptIsError {α : Type} : Except String α → Bool
  | Except.error _ => true
  | Except.ok _ => false

/-! ## Lemmas: run-once cleanup -/

/-- Once `isCleanedUp` is set, the cleanup closure is the identity. -/
theorem runCleanup_of_cleaned {s : CleanupState} (h : s.isCleanedUp = true) :
    runCleanup s = s := by
  simp [runCleanup, h]

/-- Folding further triggers over a cleaned state changes nothing. -/
theorem foldl_runCleanup_of_cleaned (ts : List CleanupTrigger) {s : CleanupState}
    (h : s.isCleanedUp = true) :
    ts.foldl (fun s _ => runCleanup s) s = s := by
  induction ts with
  | nil => rfl
  | cons t rest ih => simp [List.foldl_cons, runCleanup_of_cleaned h, ih]

/-- Once `isCleanedUp` is set, the hardened closure with a free mutex is
the identity. -/
theorem runHardenedCleanup_of_cleaned {s : HardenedCleanupState}
    (h : s.isCleanedUp = true) :
    runHardenedCleanup s = s := by
  simp [runHardenedCleanup, h]

/-- Folding further triggers over a cleaned hardened state changes
nothing. -/
theorem foldl_runHardenedCleanup_of_cleaned (ts : List CleanupTrigger)
    {s : HardenedCleanupState} (h : s.isCleanedUp = true) :
    ts.foldl (fun s _ => runHardenedCleanup s) s = s := by
  induction ts with
  | nil => rfl
  | cons t rest ih => simp [List.foldl_cons, runHardenedCleanup_of_cleaned h, ih]

/-! ## Claim theorems: C1, C7, C8 -/

/-- Claim C1: for every task, the cleanup action executes its body at
most once no matter how many trigger paths invoke it or how often: any
nonempty sequence of trigger invocations leaves the state with exactly
one kill attempt, one workspace-removal attempt and one
listener-detach, every invocation after the first is a no-op, and the
same holds for the hardened mutex-guarded variant. -/
theorem claim_c1_cleanup_at_most_once :
    ∀ ts : List CleanupTrigger, ts ≠ [] →
    fireTriggers ts = ⟨true, true, 1, 1, 1⟩ ∧
    runCleanup (fireTriggers ts) = fireTriggers ts ∧
    fireHardenedTriggers ts = ⟨true, false, true, 1, 1, 1⟩ ∧
    runHardenedCleanup (fireHardenedTriggers ts) = fireHardenedTriggers ts := by
  intro ts hne
  cases ts with
  | nil => exact absurd rfl hne
  | cons t rest =>
    have h1 : fireTriggers (t :: rest) = ⟨true, true, 1, 1, 1⟩ := by
      show (t :: rest).foldl (fun s _ => runCleanup s) initialCleanupState = _
      rw [List.foldl_cons]
      have : runCleanup initialCleanupState = ⟨true, true, 1, 1, 1⟩ := by decide
      rw [this, foldl_runCleanup_of_cleaned rest rfl]
    have h2 : fireHardenedTriggers (t :: rest) = ⟨true, false, true, 1, 1, 1⟩ := by
      show (t :: rest).foldl (fun s _ => runHardenedCleanup s) initialHardenedState = _
      rw [List.foldl_cons]
      have : runHardenedCleanup initialHardenedState = ⟨true, false, true, 1, 1, 1⟩ := by
        decide
      rw [this, foldl_runHardenedCleanup_of_cleaned rest rfl]
    refine ⟨h1, ?_, h2, ?_⟩
    · rw [h1]; exact runCleanup_of_cleaned rfl
    · rw [h2]; exact runHardenedCleanup_of_cleaned rfl

/-- Witness for C1: three triggers firing in sequence (timeout, host
signal, child close) produce exactly one kill attempt and one removal
attempt in both closure variants. -/
theorem claim_c1_witness :
    fireTriggers [CleanupTrigger.timeoutFired, CleanupTrigger.hostSignal,
      CleanupTrigger.childClose] = ⟨true, true, 1, 1, 1⟩ ∧
    runCleanup (fireTriggers [CleanupTrigger.timeoutFired, CleanupTrigger.hostSignal,
      CleanupTrigger.childClose]) =
      fireTriggers [CleanupTrigger.timeoutFired, CleanupTrigger.hostSignal,
        CleanupTrigger.childClose] ∧
    fireHardenedTriggers [CleanupTrigger.timeoutFired, CleanupTrigger.hostSignal,
      CleanupTrigger.childClose] = ⟨true, false, true, 1, 1, 1⟩ ∧
    runHardenedCleanup (fireHardenedTriggers [CleanupTrigger.timeoutFired,
      CleanupTrigger.hostSignal, CleanupTrigger.childClose]) =
      fireHardenedTriggers [CleanupTrigger.timeoutFired, CleanupTrigger.hostSignal,
        CleanupTrigger.childClose] :=
  claim_c1_cleanup_at_most_once
    [CleanupTrigger.timeoutFired, CleanupTrigger.hostSignal, CleanupTrigger.childClose]
    (List.cons_ne_nil _ _)

/-- Claim C7: with identity `auto`, resolution scans the priority list
claude-then-gemini and returns the first capability whose probe
succeeds; when both probes report unavailable it fails with the
no-provider-available error and never returns a capability. -/
theorem claim_c7_auto_priority_order :
    ∀ (fallbackEnabled : Bool) (a : Availability),
    createProvider ProviderIdentity.auto fallbackEnabled a =
      (if a.claudeAvailable then Except.ok ProviderName.claude
       else if a.geminiAvailable then Except.ok ProviderName.gemini
       else Except.error noProviderMessage) := by
  intro fallbackEnabled a
  obtain ⟨ca, ga⟩ := a
  cases ca <;> cases ga <;> rfl

/-- Claim C8: with an explicit identity, `fallbackEnabled = true` and
the requested capability unavailable, resolution returns the other
capability when it is available and fails with the
neither-available error otherwise. -/
theorem claim_c8_explicit_fallback :
    ∀ (a : Availability),
    (a.claudeAvailable = false →
      createProvider ProviderIdentity.claude true a =
        (if a.geminiAvailable then Except.ok ProviderName.gemini
         else Except.error (neitherAvailableMessage ProviderName.claude))) ∧
    (a.geminiAvailable = false →
      createProvider ProviderIdentity.gemini true a =
        (if a.claudeAvailable then Except.ok ProviderName.claude
         else Except.error (neitherAvailableMessage ProviderName.gemini))) := by
  intro a
  obtain ⟨ca, ga⟩ := a
  cases ca <;> cases ga <;>
    refine ⟨fun h => ?_, fun h => ?_⟩ <;>
    first
      | exact absurd h (by decide)
      | rfl

/-- Witness for C8: with claude requested but unavailable and gemini
available, resolution yields gemini; with gemini requested but
unavailable and claude unavailable as well, resolution fails. -/
theorem claim_c8_witness :
    createProvider ProviderIdentity.claude true ⟨false, true⟩ =
      Except.ok ProviderName.gemini ∧
    createProvider ProviderIdentity.gemini true ⟨false, false⟩ =
      Except.error (neitherAvailableMessage ProviderName.gemini) :=
  ⟨(claim_c8_explicit_fallback ⟨false, true⟩).1 rfl,
   (claim_c8_explicit_fallback ⟨false, false⟩).2 rfl⟩

/-! ## Lemmas: string scanning -/

/-- Empty patterns are found in every string. -/
theorem includesL_nil (hay : List Char) : includesL hay [] = true := by
  induction hay with
  | nil => rfl
  | cons h rest ih => simp [includesL, startsWithL]

/-- A single-character pattern is found exactly when the character
occurs in the string. -/
theorem mem_of_includesL_single {hay : List Char} {c : Char}
    (h : includesL hay [c] = true) : c ∈ hay := by
  induction hay with
  | nil => simp [includesL, List.isEmpty] at h
  | cons x rest ih =>
    simp only [includesL, startsWithL, Bool.or_eq_true, Bool.and_eq_true] at h
    rcases h with ⟨hc, _⟩ | hrec
    · have : c = x := by
        have := beq_iff_eq.mp hc
        exact this
      simp [this]
    · exact List.mem_cons_of_mem _ (ih hrec)

/-- Extending the string on the right preserves a prefix match. -/
theorem startsWithL_append {hay pat ext : List Char}
    (h : startsWithL hay pat = true) :
    startsWithL (hay ++ ext) pat = true := by
  induction pat generalizing hay with
  | nil => cases hay <;> simp [startsWithL]
  | cons p ps ih =>
    cases hay with
    | nil => simp [startsWithL] at h
    | cons x xs =>
      simp only [startsWithL, Bool.and_eq_true] at h ⊢
      exact ⟨h.1, ih h.2⟩

/-- Extending the string on the right preserves an occurrence of the
pattern. -/
theorem includesL_append_right {hay pat ext : List Char}
    (h : includesL hay pat = true) :
    includesL (hay ++ ext) pat = true := by
  induction hay with
  | nil =>
    have : pat = [] := by
      cases pat with
      | nil => rfl
      | cons p ps => simp [includesL, List.isEmpty] at h
    subst this
    exact includesL_nil ext
  | cons x xs ih =>
    simp only [includesL, Bool.or_eq_true] at h
    rcases h with hpre | hrec
    · simp only [List.cons_append, includesL, Bool.or_eq_true]
      exact Or.inl (startsWithL_append hpre)
    · simp only [List.cons_append, includesL, Bool.or_eq_true]
      exact Or.inr (ih hrec)

/-- The quota signature scan is monotone in the accumulated buffer. -/
theorem quotaSignature_append {buffer ext : List Char}
    (h : quotaSignature buffer = true) :
    quotaSignature (buffer ++ ext) = true := by
  simp only [quotaSignature, Bool.or_eq_true] at h ⊢
  rcases h with ((((h | h) | h) | h) | h) <;>
    simp [includesL_append_right h]

/-! ## Claim theorems: C4, C5, C6 -/

/-- Counterexample to claim C4: in an environment where the executable
cannot be started (spawn fails at the OS level), `ClaudeProvider.execute`
still resolves with a process handle whose error event is pending; the
promise does not reject. -/
theorem claim_c4_counterexample :
    claudeExecute "prompt" "/work" ⟨true⟩ =
      Except.ok (claudeHandle "prompt" "/work" ⟨true⟩) ∧
    (claudeHandle "prompt" "/work" ⟨true⟩).pendingErrorEvent = true :=
  ⟨rfl, rfl⟩

/-- Claim C4 as amended: `ClaudeProvider.execute` has no rejection path,
so spawn-time failures are never surfaced synchronously; `execute`
resolves with the spawned handle for every environment, the issue
orchestrator then responds 200, and the failure is only observed
asynchronously through the handle error event, whose handler invokes
the run-once cleanup action. -/
theorem claim_c4_spawn_failure_async :
    ∀ (env : SpawnEnv) (prompt workingDir : String),
    claudeExecute prompt workingDir env =
      Except.ok (claudeHandle prompt workingDir env) ∧
    issueHandlerResponse prompt workingDir env = HandlerResponse.started200 ∧
    fireTriggers [CleanupTrigger.childError] = ⟨true, true, 1, 1, 1⟩ := by
  intro env prompt workingDir
  exact ⟨rfl, rfl, by decide⟩

/-- Counterexample to claim C5: the issue handler builds the clone
argument vector directly from the payload repository identity; for an
identity with an extra slash the vector is built even though the
validation used by the review-comment handler rejects that identity. -/
theorem claim_c5_counterexample :
    sanitizeRepositoryName "owner/extra/repo" =
      Except.error "Invalid repository name format" ∧
    cloneArgsIssue "owner/extra/repo" "/tmp/ai-github-helper/issue-7-1/repo" =
      ["gh", "repo", "clone", "owner/extra/repo", "/tmp/ai-github-helper/issue-7-1/repo"] :=
  ⟨rfl, rfl⟩

/-- Claim C5 as amended: in the review-comment handler every clone
argument vector is built from a repository identity that passed the
strict `owner/repo` validation (identities failing the shape are
rejected before the vector exists); the issue handler, by contrast,
places the raw payload identity in its clone vector without
validation. -/
theorem claim_c5_review_clone_validated :
    ∀ (fullName repoPath : String) (args : List String),
    cloneArgsReviewComment fullName repoPath = Except.ok args →
    matchesRepoNameRegex fullName = true ∧
    args = ["gh", "repo", "clone", fullName, repoPath] := by
  intro fullName repoPath args h
  by_cases h1 : fullName = ""
  · simp [cloneArgsReviewComment, sanitizeRepositoryName, h1, Except.map] at h
  · by_cases h2 : matchesRepoNameRegex fullName = true
    · refine ⟨h2, ?_⟩
      simp [cloneArgsReviewComment, sanitizeRepositoryName, h1, h2, Except.map] at h
      exact h.symm
    · simp [cloneArgsReviewComment, sanitizeRepositoryName, h1, h2, Except.map] at h

/-- Witness for C5 (amended): a well-formed identity passes and yields
the expected vector. -/
theorem claim_c5_witness :
    matchesRepoNameRegex "TurnipTech/AiGithubHelper" = true ∧
    ["gh", "repo", "clone", "TurnipTech/AiGithubHelper", "/tmp/ai-github-helper/review-1-2"] =
      ["gh", "repo", "clone", "TurnipTech/AiGithubHelper", "/tmp/ai-github-helper/review-1-2"] :=
  claim_c5_review_clone_validated "TurnipTech/AiGithubHelper"
    "/tmp/ai-github-helper/review-1-2"
    ["gh", "repo", "clone", "TurnipTech/AiGithubHelper", "/tmp/ai-github-helper/review-1-2"]
    rfl

/-- Claim C6: branch-name validation rejects every branch name that
contains a space, contains a tilde, begins with a slash, or contains a
`..` sequence; since the checkout argument vector is only assembled
from the validation output, no checkout command is constructed from
such a name.  Both the review-comment validator and the hardened
variant reject. -/
theorem claim_c6_branch_validation_rejects :
    ∀ b : String,
    (strIncludes b " " = true ∨ strIncludes b "~" = true ∨
      strStartsWith b "/" = true ∨ strIncludes b ".." = true) →
    exceptIsError (checkoutArgs b) = true ∧
    exceptIsError (sanitizeBranchNameHardened b) = true := by
  intro b hbad
  constructor
  · have hs : exceptIsError (sanitizeBranchName b) = true := by
      by_cases h1 : b = ""
      · simp [sanitizeBranchName, h1, exceptIsError]
      · by_cases h2 : matchesBranchNameRegex b = true
        · have hall : b.data.all branchNameChar = true := by
            simp only [matchesBranchNameRegex, Bool.and_eq_true] at h2
            exact h2.2
          have hcond : (strIncludes b ".." || strStartsWith b "/" ||
              endsWithL b.data "/".data) = true := by
            rcases hbad with hsp | hti | hsl | hdd
            · exfalso
              have hsp' : includesL b.data [' '] = true := hsp
              have hmem : ' ' ∈ b.data := mem_of_includesL_single hsp'
              have := List.all_eq_true.mp hall _ hmem
              simp [branchNameChar] at this
            · exfalso
              have hti' : includesL b.data ['~'] = true := hti
              have hmem : '~' ∈ b.data := mem_of_includesL_single hti'
              have := List.all_eq_true.mp hall _ hmem
              simp [branchNameChar] at this
            · simp [hsl]
            · simp [hdd]
          simp [sanitizeBranchName, h1, h2, hcond, exceptIsError]
        · simp [sanitizeBranchName, h1, h2, exceptIsError]
    cases hcase : sanitizeBranchName b with
    | ok v => rw [hcase] at hs; simp [exceptIsError] at hs
    | error e => simp [checkoutArgs, hcase, Except.map, exceptIsError]
  · by_cases h1 : b = ""
    · simp [sanitizeBranchNameHardened, h1, exceptIsError]
    · by_cases h2 : matchesHardenedBranchRegex b = true
      · rcases hbad with hsp | hti | hsl | hdd
        · simp [sanitizeBranchNameHardened, h1, h2, exceptIsError, hsp]
        · simp [sanitizeBranchNameHardened, h1, h2, exceptIsError, hti]
        · simp [sanitizeBranchNameHardened, h1, h2, exceptIsError, hsl]
        · simp [sanitizeBranchNameHardened, h1, h2, exceptIsError, hdd]
      · simp [sanitizeBranchNameHardened, h1, h2, exceptIsError]

/-- Witness for C6: a branch name with a space, one that begins with a
slash, and one containing `..` are all rejected by both validators. -/
theorem claim_c6_witness :
    (exceptIsError (checkoutArgs "feature branch") = true ∧
      exceptIsError (sanitizeBranchNameHardened "feature branch") = true) ∧
    (exceptIsError (checkoutArgs "/etc/passwd") = true ∧
      exceptIsError (sanitizeBranchNameHardened "/etc/passwd") = true) ∧
    (exceptIsError (checkoutArgs "a/../b") = true ∧
      exceptIsError (sanitizeBranchNameHardened "a/../b") = true) :=
  ⟨claim_c6_branch_validation_rejects "feature branch" (Or.inl (by decide)),
   claim_c6_branch_validation_rejects "/etc/passwd" (Or.inr (Or.inr (Or.inl (by decide)))),
   claim_c6_branch_validation_rejects "a/../b" (Or.inr (Or.inr (Or.inr (by decide))))⟩

/-! ## Lemmas: the `tryModel` promise machinery -/

/-- Once the `tryModel` promise is settled, later events change neither
the settlement nor the kill flag (every state change in the handlers is
guarded by the `resolved` flag). -/
theorem tryModelStep_of_resolved {s : TryModelState} {e : GeminiEvent}
    (h : s.resolved = true) :
    (tryModelStep s e).resolved = true ∧
    (tryModelStep s e).settled = s.settled ∧
    (tryModelStep s e).killedPrimarySignal = s.killedPrimarySignal := by
  cases e with
  | stderrData c =>
    by_cases hq : quotaSignature (s.stderrBuffer ++ c) = true
    · simp [tryModelStep, hq, h]
    · simp [tryModelStep, hq, h]
  | errorEvent => simp [tryModelStep, h]
  | exitEvent code => simp [tryModelStep, h]
  | graceTimer => simp [tryModelStep, h]

/-- Folding any further events over a settled `tryModel` state preserves
the settlement and the kill flag. -/
theorem tryModelRun_of_resolved (events : List GeminiEvent) {s : TryModelState}
    (h : s.resolved = true) :
    (List.foldl tryModelStep s events).resolved = true ∧
    (List.foldl tryModelStep s events).settled = s.settled ∧
    (List.foldl tryModelStep s events).killedPrimarySignal = s.killedPrimarySignal := by
  induction events generalizing s with
  | nil => exact ⟨h, rfl, rfl⟩
  | cons e rest ih =>
    have hstep := tryModelStep_of_resolved (s := s) (e := e) h
    have hrest := ih (s := tryModelStep s e) hstep.1
    exact ⟨hrest.1, hrest.2.1.trans hstep.2.1, hrest.2.2.trans hstep.2.2⟩

/-- Standard-error chunks whose accumulation reaches a quota signature
reject the `tryModel` promise and send `SIGTERM` to the subprocess. -/
theorem stderr_run_rejects :
    ∀ (chunks : List (List Char)) (s : TryModelState),
    s.resolved = false →
    quotaSignature s.stderrBuffer = false →
    quotaSignature (s.stderrBuffer ++ chunks.flatten) = true →
    (List.foldl tryModelStep s (chunks.map GeminiEvent.stderrData)).resolved = true ∧
    (List.foldl tryModelStep s (chunks.map GeminiEvent.stderrData)).settled =
      TrySettled.rejected ∧
    (List.foldl tryModelStep s (chunks.map GeminiEvent.stderrData)).killedPrimarySignal =
      true := by
  intro chunks
  induction chunks with
  | nil =>
    intro s hres hq0 hq
    rw [List.flatten_nil, List.append_nil] at hq
    rw [hq0] at hq
    exact absurd hq (by decide)
  | cons c rest ih =>
    intro s hres hq0 hq
    by_cases hq1 : quotaSignature (s.stderrBuffer ++ c) = true
    · have hstep : tryModelStep s (GeminiEvent.stderrData c) =
          { s with stderrBuffer := s.stderrBuffer ++ c, timeoutCleared := true,
                   resolved := true, killedPrimarySignal := true,
                   settled := TrySettled.rejected } := by
        simp [tryModelStep, hq1, hres]
      rw [List.map_cons, List.foldl_cons, hstep]
      exact tryModelRun_of_resolved (rest.map GeminiEvent.stderrData) rfl
    · have hq1f : quotaSignature (s.stderrBuffer ++ c) = false := by
        simpa using hq1
      have hstep : tryModelStep s (GeminiEvent.stderrData c) =
          { s with stderrBuffer := s.stderrBuffer ++ c } := by
        simp [tryModelStep, hq1f]
      rw [List.map_cons, List.foldl_cons, hstep]
      exact ih { s with stderrBuffer := s.stderrBuffer ++ c } hres hq1f
        (by simpa [List.append_assoc] using hq)

/-- Standard-error chunks that never reach a quota signature only grow
the buffer; the promise stays pending and nothing is killed. -/
theorem stderr_run_clean :
    ∀ (chunks : List (List Char)) (s : TryModelState),
    quotaSignature (s.stderrBuffer ++ chunks.flatten) = false →
    List.foldl tryModelStep s (chunks.map GeminiEvent.stderrData) =
      { s with stderrBuffer := s.stderrBuffer ++ chunks.flatten } := by
  intro chunks
  induction chunks with
  | nil => intro s hq; simp
  | cons c rest ih =>
    intro s hq
    have hq1 : quotaSignature (s.stderrBuffer ++ c) = false := by
      by_contra hcon
      have htrue : quotaSignature (s.stderrBuffer ++ c) = true := by
        simpa using hcon
      have : quotaSignature ((s.stderrBuffer ++ c) ++ rest.flatten) = true :=
        quotaSignature_append htrue
      rw [List.append_assoc] at this
      rw [List.flatten_cons, ← List.append_assoc] at hq
      rw [List.append_assoc] at hq
      rw [hq] at this
      exact absurd this (by decide)
    have hstep : tryModelStep s (GeminiEvent.stderrData c) =
        { s with stderrBuffer := s.stderrBuffer ++ c } := by
      simp [tryModelStep, hq1]
    rw [List.map_cons, List.foldl_cons, hstep]
    rw [ih { s with stderrBuffer := s.stderrBuffer ++ c }
      (by simpa [List.append_assoc] using hq)]
    simp [List.append_assoc]

/-! ## Claim theorems: C3, C9 -/

/-- Claim C3: if the accumulated standard error of the primary
subprocess comes to contain `status 429` while the only activity is
standard-error output (so before the grace window elapses and before
any exit), the primary subprocess is sent `SIGTERM`, the primary
`tryModel` promise rejects, and `execute` falls back: it returns the
handle of the secondary (flash) subprocess when that one establishes,
and fails with the all-models-failed error when the secondary attempt
also rejects. -/
theorem claim_c3_quota_in_window_falls_back :
    ∀ (chunks : List (List Char)) (rest fallbackEvents : List GeminiEvent),
    includesL chunks.flatten ("status 429".data) = true →
    (runTryModel (chunks.map GeminiEvent.stderrData ++ rest)).killedPrimarySignal = true ∧
    (runTryModel (chunks.map GeminiEvent.stderrData ++ rest)).settled =
      TrySettled.rejected ∧
    ((runTryModel fallbackEvents).settled = TrySettled.resolvedHandle →
      geminiExecute (chunks.map GeminiEvent.stderrData ++ rest) fallbackEvents =
        GeminiExecResult.handle fallbackModel) ∧
    ((runTryModel fallbackEvents).settled = TrySettled.rejected →
      geminiExecute (chunks.map GeminiEvent.stderrData ++ rest) fallbackEvents =
        GeminiExecResult.allModelsFailed) := by
  intro chunks rest fallbackEvents h429
  have hq : quotaSignature chunks.flatten = true := by
    simp [quotaSignature, h429]
  have hmid := stderr_run_rejects chunks initialTryModelState rfl (by decide)
    (by simpa using hq)
  have hsplit : runTryModel (chunks.map GeminiEvent.stderrData ++ rest) =
      List.foldl tryModelStep
        (List.foldl tryModelStep initialTryModelState (chunks.map GeminiEvent.stderrData))
        rest := by
    simp [runTryModel, List.foldl_append]
  have habs := tryModelRun_of_resolved rest hmid.1
  have hsettled : (runTryModel (chunks.map GeminiEvent.stderrData ++ rest)).settled =
      TrySettled.rejected := by
    rw [hsplit, habs.2.1, hmid.2.1]
  have hkilled : (runTryModel (chunks.map GeminiEvent.stderrData ++ rest)).killedPrimarySignal =
      true := by
    rw [hsplit, habs.2.2, hmid.2.2]
  refine ⟨hkilled, hsettled, ?_, ?_⟩
  · intro hfb
    simp [geminiExecute, hsettled, hfb]
  · intro hfb
    simp [geminiExecute, hsettled, hfb]

/-- Witness for C3: one standard-error chunk containing `status 429`
rejects the primary attempt with `SIGTERM` sent, and a secondary
subprocess that reaches its grace timer becomes the returned handle;
a secondary that also emits the signature yields the all-models-failed
error. -/
theorem claim_c3_witness :
    (runTryModel [GeminiEvent.stderrData ("status 429".data)]).killedPrimarySignal = true ∧
    geminiExecute [GeminiEvent.stderrData ("status 429".data)] [GeminiEvent.graceTimer] =
      GeminiExecResult.handle fallbackModel ∧
    geminiExecute [GeminiEvent.stderrData ("status 429".data)]
      [GeminiEvent.stderrData ("status 429".data)] = GeminiExecResult.allModelsFailed := by
  have h1 := claim_c3_quota_in_window_falls_back [("status 429".data)] []
    [GeminiEvent.graceTimer] (by decide)
  have h2 := claim_c3_quota_in_window_falls_back [("status 429".data)] []
    [GeminiEvent.stderrData ("status 429".data)] (by decide)
  exact ⟨h1.1, h1.2.2.1 (by decide), h2.2.2.2 (by decide)⟩

/-- Claim C9: when no quota signature accumulates before the grace
timer fires, the primary `tryModel` promise resolves with the primary
handle at the timer; any quota signature or exit arriving afterwards
changes nothing: the primary subprocess is never sent `SIGTERM` by the
provider, no secondary subprocess result is consulted, and `execute`
returns the primary-model handle, through which the caller observes the
eventual exit. -/
theorem claim_c9_quota_after_window_no_retry :
    ∀ (chunks : List (List Char)) (rest fallbackEvents : List GeminiEvent),
    quotaSignature chunks.flatten = false →
    (runTryModel (chunks.map GeminiEvent.stderrData ++ GeminiEvent.graceTimer :: rest)).settled =
      TrySettled.resolvedHandle ∧
    (runTryModel (chunks.map GeminiEvent.stderrData ++
      GeminiEvent.graceTimer :: rest)).killedPrimarySignal = false ∧
    geminiExecute (chunks.map GeminiEvent.stderrData ++ GeminiEvent.graceTimer :: rest)
      fallbackEvents = GeminiExecResult.handle primaryModel := by
  intro chunks rest fallbackEvents hq
  have hmid := stderr_run_clean chunks initialTryModelState (by simpa using hq)
  have hsplit : runTryModel (chunks.map GeminiEvent.stderrData ++ GeminiEvent.graceTimer :: rest) =
      List.foldl tryModelStep
        (tryModelStep
          (List.foldl tryModelStep initialTryModelState (chunks.map GeminiEvent.stderrData))
          GeminiEvent.graceTimer)
        rest := by
    simp [runTryModel, List.foldl_append]
  have hgrace : tryModelStep
      (List.foldl tryModelStep initialTryModelState (chunks.map GeminiEvent.stderrData))
      GeminiEvent.graceTimer =
      (⟨chunks.flatten, true, false, false, TrySettled.resolvedHandle⟩ : TryModelState) := by
    rw [hmid]
    simp [tryModelStep, initialTryModelState]
  have habs := tryModelRun_of_resolved rest
    (s := (⟨chunks.flatten, true, false, false, TrySettled.resolvedHandle⟩ : TryModelState)) rfl
  have hsettled : (runTryModel (chunks.map GeminiEvent.stderrData ++
      GeminiEvent.graceTimer :: rest)).settled = TrySettled.resolvedHandle := by
    rw [hsplit, hgrace, habs.2.1]
  have hkilled : (runTryModel (chunks.map GeminiEvent.stderrData ++
      GeminiEvent.graceTimer :: rest)).killedPrimarySignal = false := by
    rw [hsplit, hgrace, habs.2.2]
  exact ⟨hsettled, hkilled, by simp [geminiExecute, hsettled]⟩

/-- Witness for C9: a `status 429` chunk and a nonzero exit arriving
after the grace timer neither kill the primary subprocess nor trigger a
fallback; the caller keeps the primary-model handle. -/
theorem claim_c9_witness :
    (runTryModel [GeminiEvent.graceTimer, GeminiEvent.stderrData ("status 429".data),
      GeminiEvent.exitEvent 1]).killedPrimarySignal = false ∧
    geminiExecute [GeminiEvent.graceTimer, GeminiEvent.stderrData ("status 429".data),
      GeminiEvent.exitEvent 1] [] = GeminiExecResult.handle primaryModel := by
  have h := claim_c9_quota_after_window_no_retry []
    [GeminiEvent.stderrData ("status 429".data), GeminiEvent.exitEvent 1] [] (by decide)
  exact ⟨h.2.1, h.2.2⟩

/-! ## Lemmas: path resolution and normalization

The key fact behind the workspace-path claims is that `path.resolve`
output is already normalized, so the `path.normalize` call in
`setupWorkingDirectory` is the identity on it: the validated string and
the returned string coincide. -/

/-- A segment produced by resolution: nonempty, not `.`, not `..`, and
separator-free. -/
def cleanSeg (seg : List Char) : Prop :=
  seg ≠ [] ∧ seg ≠ ['.'] ∧ seg ≠ ['.', '.'] ∧ '/' ∉ seg

/-- Splitting on `/` yields separator-free segments. -/
theorem splitSlashAux_sep_free (cs : List Char) :
    ∀ cur : List Char, '/' ∉ cur → ∀ seg ∈ splitSlashAux cur cs, '/' ∉ seg := by
  induction cs with
  | nil =>
    intro cur hcur seg hseg
    simp only [splitSlashAux, List.mem_singleton] at hseg
    subst hseg
    simpa [List.mem_reverse] using hcur
  | cons c rest ih =>
    intro cur hcur seg hseg
    by_cases hc : c = '/'
    · rw [show splitSlashAux cur (c :: rest) = cur.reverse :: splitSlashAux [] rest by
        simp [splitSlashAux, hc]] at hseg
      rcases List.mem_cons.mp hseg with hh | ht
      · subst hh; simpa [List.mem_reverse] using hcur
      · exact ih [] (List.not_mem_nil _) seg ht
    · rw [show splitSlashAux cur (c :: rest) = splitSlashAux (c :: cur) rest by
        simp [splitSlashAux, hc]] at hseg
      refine ih (c :: cur) ?_ seg hseg
      intro hmem
      rcases List.mem_cons.mp hmem with hh | ht
      · exact hc hh.symm
      · exact hcur ht

/-- All segments of a split path are separator-free. -/
theorem splitSlash_sep_free (cs : List Char) :
    ∀ seg ∈ splitSlash cs, '/' ∉ seg :=
  splitSlashAux_sep_free cs [] (List.not_mem_nil _)

/-- Resolution only accumulates clean segments. -/
theorem resolveSegs_clean :
    ∀ (l acc : List (List Char)),
    (∀ s ∈ acc, cleanSeg s) → (∀ s ∈ l, '/' ∉ s) →
    ∀ s ∈ resolveSegs acc l, cleanSeg s := by
  intro l
  induction l with
  | nil =>
    intro acc hacc hl s hs
    exact hacc s hs
  | cons seg rest ih =>
    intro acc hacc hl s hs
    by_cases h1 : seg = [] ∨ seg = ['.']
    · rw [show resolveSegs acc (seg :: rest) = resolveSegs acc rest by
        simp [resolveSegs, h1]] at hs
      exact ih acc hacc (fun t ht => hl t (List.mem_cons_of_mem _ ht)) s hs
    · by_cases h2 : seg = ['.', '.']
      · rw [show resolveSegs acc (seg :: rest) = resolveSegs acc.dropLast rest by
          simp [resolveSegs, h1, h2]] at hs
        refine ih acc.dropLast ?_ (fun t ht => hl t (List.mem_cons_of_mem _ ht)) s hs
        intro t ht
        exact hacc t ((List.dropLast_sublist acc).subset ht)
      · rw [show resolveSegs acc (seg :: rest) = resolveSegs (acc ++ [seg]) rest by
          simp [resolveSegs, h1, h2]] at hs
        refine ih (acc ++ [seg]) ?_ (fun t ht => hl t (List.mem_cons_of_mem _ ht)) s hs
        intro t ht
        rcases List.mem_append.mp ht with hta | htb
        · exact hacc t hta
        · rw [List.mem_singleton.mp htb]
          push_neg at h1
          exact ⟨h1.1, h1.2, h2, hl seg (List.mem_cons_self _ _)⟩

/-- Splitting a separator-free character list recovers it whole. -/
theorem splitSlashAux_no_sep (s : List Char) :
    ∀ cur : List Char, '/' ∉ s → splitSlashAux cur s = [cur.reverse ++ s] := by
  induction s with
  | nil => intro cur h; simp [splitSlashAux]
  | cons c rest ih =>
    intro cur h
    have hc : ¬ c = '/' := by
      intro hcc
      exact h (by simp [hcc])
    rw [show splitSlashAux cur (c :: rest) = splitSlashAux (c :: cur) rest by
      simp [splitSlashAux, hc]]
    rw [ih (c :: cur) (fun hm => h (List.mem_cons_of_mem _ hm))]
    simp

/-- Splitting at the first separator detaches the leading segment. -/
theorem splitSlashAux_first_sep (s : List Char) :
    ∀ (cur t : List Char), '/' ∉ s →
    splitSlashAux cur (s ++ '/' :: t) = (cur.reverse ++ s) :: splitSlashAux [] t := by
  induction s with
  | nil => intro cur t h; simp [splitSlashAux]
  | cons c rest ih =>
    intro cur t h
    have hc : ¬ c = '/' := by
      intro hcc
      exact h (by simp [hcc])
    rw [show splitSlashAux cur ((c :: rest) ++ '/' :: t) = splitSlashAux (c :: cur) (rest ++ '/' :: t) by
      simp [splitSlashAux, hc]]
    rw [ih (c :: cur) t (fun hm => h (List.mem_cons_of_mem _ hm))]
    simp

/-- Splitting is a left inverse of joining for nonempty lists of
separator-free segments. -/
theorem splitSlash_joinSegs :
    ∀ segs : List (List Char), segs ≠ [] → (∀ s ∈ segs, '/' ∉ s) →
    splitSlash (joinSegs segs) = segs := by
  intro segs
  induction segs with
  | nil => intro h; exact absurd rfl h
  | cons s rest ih =>
    intro _ hfree
    cases rest with
    | nil =>
      show splitSlash (joinSegs [s]) = [s]
      rw [show joinSegs [s] = s from rfl]
      unfold splitSlash
      rw [splitSlashAux_no_sep s [] (hfree s (List.mem_cons_self _ _))]
      simp
    | cons s2 rest2 =>
      rw [show joinSegs (s :: s2 :: rest2) = s ++ '/' :: joinSegs (s2 :: rest2) from rfl]
      unfold splitSlash
      rw [splitSlashAux_first_sep s [] (joinSegs (s2 :: rest2))
        (hfree s (List.mem_cons_self _ _))]
      simp only [List.reverse_nil, List.nil_append, List.cons.injEq, true_and]
      exact ih (List.cons_ne_nil _ _) (fun t ht => hfree t (List.mem_cons_of_mem _ ht))

/-- Resolution is a plain append on clean segments. -/
theorem resolveSegs_of_clean :
    ∀ (l acc : List (List Char)), (∀ s ∈ l, cleanSeg s) →
    resolveSegs acc l = acc ++ l := by
  intro l
  induction l with
  | nil => intro acc _; simp [resolveSegs]
  | cons seg rest ih =>
    intro acc hl
    obtain ⟨h1, h2, h3, _⟩ := hl seg (List.mem_cons_self _ _)
    rw [show resolveSegs acc (seg :: rest) = resolveSegs (acc ++ [seg]) rest by
      simp [resolveSegs, h1, h2, h3]]
    rw [ih (acc ++ [seg]) (fun t ht => hl t (List.mem_cons_of_mem _ ht))]
    simp

/-- Normalization is the identity on a rendered list of clean
segments. -/
theorem nodeNormalize_renderAbs (segs : List (List Char))
    (h : ∀ s ∈ segs, cleanSeg s) :
    nodeNormalize (renderAbs segs) = renderAbs segs := by
  unfold nodeNormalize
  rw [show (renderAbs segs).data = '/' :: joinSegs segs from rfl]
  rw [show splitSlash ('/' :: joinSegs segs) = [] :: splitSlash (joinSegs segs) by
    simp [splitSlash, splitSlashAux]]
  rw [show resolveSegs [] ([] :: splitSlash (joinSegs segs)) =
      resolveSegs [] (splitSlash (joinSegs segs)) by simp [resolveSegs]]
  cases segs with
  | nil =>
    rw [show joinSegs [] = [] from rfl]
    rfl
  | cons s rest =>
    rw [splitSlash_joinSegs (s :: rest) (List.cons_ne_nil _ _)
      (fun t ht => (h t ht).2.2.2)]
    rw [resolveSegs_of_clean (s :: rest) [] h]
    simp

/-- The output of `path.resolve` is built from clean segments. -/
theorem nodeResolve_clean (base sub : String) :
    ∃ segs : List (List Char), (∀ s ∈ segs, cleanSeg s) ∧
      nodeResolve base sub = renderAbs segs := by
  unfold nodeResolve
  by_cases habs : startsWithL sub.data ['/'] = true
  · refine ⟨resolveSegs [] (splitSlash sub.data), ?_, by simp [habs]⟩
    exact resolveSegs_clean (splitSlash sub.data) []
      (fun t ht => absurd ht (List.not_mem_nil _)) (splitSlash_sep_free sub.data)
  · refine ⟨resolveSegs (resolveSegs [] (splitSlash base.data)) (splitSlash sub.data),
      ?_, by simp [habs]⟩
    exact resolveSegs_clean (splitSlash sub.data)
      (resolveSegs [] (splitSlash base.data))
      (resolveSegs_clean (splitSlash base.data) []
        (fun t ht => absurd ht (List.not_mem_nil _)) (splitSlash_sep_free base.data))
      (splitSlash_sep_free sub.data)

/-- `path.normalize` is the identity on `path.resolve` output. -/
theorem nodeNormalize_nodeResolve (base sub : String) :
    nodeNormalize (nodeResolve base sub) = nodeResolve base sub := by
  obtain ⟨segs, hclean, heq⟩ := nodeResolve_clean base sub
  rw [heq, nodeNormalize_renderAbs segs hclean]

/-- Characterization of `setupWorkingDirectory`: the resolved workspace
path is returned exactly when it lies inside the base directory
(equality included), and the invalid-path error is thrown exactly when
it escapes. -/
theorem setupWorkingDirectory_eq (sub : String) :
    setupWorkingDirectory sub =
      (if insideBase (nodeResolve (nodeResolve tmpdirPath "ai-github-helper") sub) = true
       then Except.ok (nodeResolve (nodeResolve tmpdirPath "ai-github-helper") sub)
       else Except.error "Invalid temporary directory path") := by
  simp only [setupWorkingDirectory]
  rw [nodeNormalize_nodeResolve]
  set t := nodeResolve (nodeResolve tmpdirPath "ai-github-helper") sub with ht
  by_cases hin : insideBase t = true
  · have hnc : ¬ (¬ (strStartsWith t (expectedBasePath ++ "/") = true) ∧
        t ≠ expectedBasePath) := by
      intro hcon
      rcases Bool.or_eq_true _ _ ▸ hin with hbeq | hsw
      · exact hcon.2 (beq_iff_eq.mp hbeq)
      · exact hcon.1 hsw
    rw [if_neg hnc, if_pos hin]
  · have hin' : insideBase t = false := by
      cases hb : insideBase t
      · rfl
      · exact absurd hb hin
    have hsplit : (t == expectedBasePath) = false ∧
        strStartsWith t (expectedBasePath ++ "/") = false := by
      have := hin'
      unfold insideBase at this
      exact Bool.or_eq_false_iff.mp this
    have hc : (¬ (strStartsWith t (expectedBasePath ++ "/") = true) ∧
        t ≠ expectedBasePath) := by
      constructor
      · rw [hsplit.2]; exact Bool.false_ne_true
      · intro he
        rw [he] at hsplit
        simp at hsplit
    rw [if_pos hc, if_neg hin]

/-! ## Claim theorems: C2, C10 -/

/-- Counterexample to claim C2: the identifier
`../ai-github-helper/evil` contains a `../` traversal sequence, yet
`setupWorkingDirectory` does not raise the invalid-path error: the
traversal cancels back into the base directory, the validation accepts
it, and a workspace path is returned. -/
theorem claim_c2_counterexample :
    strIncludes "../ai-github-helper/evil" "../" = true ∧
    setupWorkingDirectory "../ai-github-helper/evil" =
      Except.ok "/tmp/ai-github-helper/evil" :=
  ⟨by decide, rfl⟩

/-- Claim C2 as amended: every workspace path returned by
`setupWorkingDirectory` lies inside the fixed base temp directory (it
is the base itself or a descendant of it), and whenever the resolved
path escapes the base the operation raises the invalid-path error, so
no path outside the base is ever produced.  An identifier containing a
`../` sequence is, however, not necessarily rejected: it is accepted
whenever its resolution stays inside the base. -/
theorem claim_c2_workspace_inside_base :
    (∀ subdirectoryName workspace : String,
      setupWorkingDirectory subdirectoryName = Except.ok workspace →
      insideBase workspace = true) ∧
    (∀ subdirectoryName : String,
      insideBase (nodeResolve (nodeResolve tmpdirPath "ai-github-helper")
        subdirectoryName) = false →
      setupWorkingDirectory subdirectoryName =
        Except.error "Invalid temporary directory path") := by
  constructor
  · intro sub w h
    rw [setupWorkingDirectory_eq] at h
    by_cases hin : insideBase (nodeResolve (nodeResolve tmpdirPath "ai-github-helper") sub) = true
    · rw [if_pos hin] at h
      injection h with hw
      rw [← hw]
      exact hin
    · rw [if_neg hin] at h
      exact Except.noConfusion h
  · intro sub h
    rw [setupWorkingDirectory_eq, if_neg (by simp [h])]

/-- Witness for C2 (amended): a plain task identifier yields a
workspace inside the base, and an identifier resolving to `/etc` is
rejected with the invalid-path error. -/
theorem claim_c2_witness :
    insideBase "/tmp/ai-github-helper/review-comment-12-1700000000000" = true ∧
    setupWorkingDirectory "../../etc" =
      Except.error "Invalid temporary directory path" :=
  ⟨claim_c2_workspace_inside_base.1 "review-comment-12-1700000000000"
     "/tmp/ai-github-helper/review-comment-12-1700000000000" rfl,
   claim_c2_workspace_inside_base.2 "../../etc" (by decide)⟩

/-- Claim C10: the validation of `setupWorkingDirectory` explicitly
accepts a resolved path exactly equal to the base directory: for the
identifier `.` the shared base temp directory itself is returned as the
workspace (it is not a strict descendant of the base), and since that
task's cleanup removes its workspace recursively, the removal covers
every other task's workspace nested under the base. -/
theorem claim_c10_base_itself_accepted :
    setupWorkingDirectory "." = Except.ok "/tmp/ai-github-helper" ∧
    "/tmp/ai-github-helper" = expectedBasePath ∧
    strStartsWith "/tmp/ai-github-helper" (expectedBasePath ++ "/") = false ∧
    removedBy "/tmp/ai-github-helper" "/tmp/ai-github-helper/issue-42-1700000000000" = true ∧
    removedBy "/tmp/ai-github-helper" "/tmp/ai-github-helper/review-7-1700000000001" = true :=
  ⟨rfl, by decide, by decide, by decide, by decide⟩

end AiGithubHelper
